import Mathlib

/-!
Shallow embedding of the computational core of `net_modeler`
(`src/components/network.rs`): the graph store (`Network::add_node`,
`Network::add_link`, `Network::find_node_at_point`) and the
force-directed layout engine (`Network::apply_force_directed_layout`).

Modelling conventions:
* `f64` values are modelled as rationals (`ℚ`); `f64::sqrt` is modelled
  by `fsqrt`, a nonnegative rational approximation of the real square
  root (floor of the square root of `num * den`, divided by `den`).
  The claims settled here depend only on control flow, on exact
  arithmetic identities, and on sign/comparison facts that are shared
  by the real square root, never on the rounding of `sqrt` itself.
* Rust's `f64::clamp(lo, hi)` panics when `lo > hi`; `clampF` returns
  `none` in that case and the layout routine propagates `none` as the
  model of a panic.  All other core operations are total in the source
  and are modelled by total functions.
* `petgraph::UnGraph<Node, Link>` is modelled by a list of node weights
  in insertion order (`NodeIndex` = list position, `add_node` appends)
  together with a list of edges in insertion order (`add_edge`
  appends); the `HashMap<String, NodeIndex>` of external ids is
  modelled by an association list with first-match lookup (`idxLookup`).
* `u8` link payload fields (`capacity`, `weight`) are carried opaquely
  as naturals; no arithmetic is performed on them in the core.
* The `Io`/`Csv` variants of `NetworkError` belong to the CSV-loading
  collaborator, which is out of scope; only `NodeNotFound` can be
  produced by the embedded core.
-/

namespace NetModeler

/-- Model of `f64::sqrt` on rationals: a floor-style approximation of
the real square root (exact on perfect squares), zero on nonpositive
input. -/
def fsqrt (q : ℚ) : ℚ :=
  if q ≤ 0 then 0 else (Nat.sqrt (q.num.toNat * q.den) : ℚ) / (q.den : ℚ)

/-- Model of Rust `f64::clamp`: `x.clamp(lo, hi)` panics (here: `none`)
when `hi < lo`, otherwise restricts `x` to `[lo, hi]`. -/
def clampF (x lo hi : ℚ) : Option ℚ :=
  if hi < lo then none
  else if x < lo then some lo
  else if hi < x then some hi
  else some x

/-- `Node` from `network.rs`: external string id plus a 2-D position. -/
structure Node where
  id : String
  point : ℚ × ℚ
  deriving DecidableEq, Inhabited

/-- `Link` from `network.rs`: CSV-derived payload of an edge. -/
structure Link where
  link_id : String
  source_node : String
  destination_node : String
  capacity : Nat
  weight : Nat
  deriving DecidableEq, Inhabited

/-- One stored edge of the undirected graph: the two endpoint indices
(as produced by the id lookups in `add_link`) plus the `Link` payload. -/
structure Edge where
  src : Nat
  dst : Nat
  link : Link
  deriving DecidableEq, Inhabited

/-- The only error the embedded core can produce
(`NetworkError::NodeNotFound`). -/
inductive NetworkError where
  | NodeNotFound (id : String)
  deriving DecidableEq

/-- `Network` from `network.rs`: the `UnGraph` (node weights in
insertion order plus edge list) and the id-to-index map. -/
structure Network where
  nodes : List Node
  edges : List Edge
  node_indices : List (String × Nat)
  deriving DecidableEq

/-- `Network::new()`. -/
def Network.new : Network :=
  { nodes := [], edges := [], node_indices := [] }

/-- First-match lookup in the association list modelling
`HashMap<String, NodeIndex>::get`. -/
def idxLookup (s : String) : List (String × Nat) → Option Nat
  | [] => none
  | (k, v) :: rest => if k = s then some v else idxLookup s rest

/-- `Network::add_node`: if the id is already mapped, return the
existing index and leave the store untouched; otherwise append the
node (petgraph assigns the next sequential index) and record the
id-to-index mapping. -/
def Network.add_node (net : Network) (node : Node) : Nat × Network :=
  match idxLookup node.id net.node_indices with
  | some index => (index, net)
  | none =>
    let index := net.nodes.length
    (index, { net with
                nodes := net.nodes ++ [node],
                node_indices := (node.id, index) :: net.node_indices })

/-- `Network::add_link`: look up both endpoint ids (source first);
fail with `NodeNotFound` of the missing id, leaving the store
unchanged, if either lookup fails; otherwise append one edge carrying
the link payload.  The returned pair models `(&mut self)` style
mutation: result plus the state after the call. -/
def Network.add_link (net : Network) (link : Link) :
    Except NetworkError Unit × Network :=
  match idxLookup link.source_node net.node_indices with
  | none => (.error (.NodeNotFound link.source_node), net)
  | some source_index =>
    match idxLookup link.destination_node net.node_indices with
    | none => (.error (.NodeNotFound link.destination_node), net)
    | some destination_index =>
      (.ok (), { net with
                   edges := net.edges ++
                     [{ src := source_index, dst := destination_index,
                        link := link }] })

/-- The loop body of `Network::find_node_at_point`, scanning nodes in
insertion order starting at index `i`. -/
def findFrom (x y radius : ℚ) : Nat → List Node → Option Nat
  | _, [] => none
  | i, node :: rest =>
    let dx := x - node.point.1
    let dy := y - node.point.2
    if fsqrt (dx * dx + dy * dy) ≤ radius then some i
    else findFrom x y radius (i + 1) rest

/-- `Network::find_node_at_point`. -/
def Network.find_node_at_point (net : Network) (x y radius : ℚ) :
    Option Nat :=
  findFrom x y radius 0 net.nodes

/-! ### Layout engine -/

/-- The floored length `(d.0*d.0 + d.1*d.1).sqrt().max(1e-2)` used for
both the force distances and the displacement normalisation. -/
def flooredLen (d : ℚ × ℚ) : ℚ :=
  max (fsqrt (d.1 * d.1 + d.2 * d.2)) (1 / 100)

/-- Body of the inner repulsion loop for the ordered pair
`pr = (i, j)` (`i` outer, `j` inner): push `i` and `j` apart with
force `k² / dist`, reading and writing the displacement accumulator
exactly in source order. -/
def repulsePair (k : ℚ) (nodes : List Node) (disp : List (ℚ × ℚ))
    (pr : Nat × Nat) : List (ℚ × ℚ) :=
  let node_i := nodes.getD pr.1 default
  let node_j := nodes.getD pr.2 default
  let dx := node_j.point.1 - node_i.point.1
  let dy := node_j.point.2 - node_i.point.2
  let dist := max (fsqrt (dx * dx + dy * dy)) (1 / 100)
  let force := k * k / dist
  let fx := force * dx / dist
  let fy := force * dy / dist
  let di := disp.getD pr.1 (0, 0)
  let disp1 := disp.set pr.1 (di.1 - fx, di.2 - fy)
  let dj := disp1.getD pr.2 (0, 0)
  disp1.set pr.2 (dj.1 + fx, dj.2 + fy)

/-- The repulsion phase: double loop `i in 0..n`, `j in i+1..n`, with
the outer index skipped when it is the pinned node, starting from the
freshly reset accumulator. -/
def repulsiveForces (k : ℚ) (pinned : Option Nat) (nodes : List Node) :
    List (ℚ × ℚ) :=
  let n := nodes.length
  (List.range n).foldl
    (fun disp i =>
      if pinned = some i then disp
      else (List.range' (i + 1) (n - (i + 1))).foldl
        (fun disp j => repulsePair k nodes disp (i, j)) disp)
    (List.replicate n (0, 0))

/-- Body of the attraction loop for one edge: pull the endpoints
together with force `dist² / k`, skipping edges that touch the pinned
node. -/
def attractEdge (k : ℚ) (pinned : Option Nat) (nodes : List Node)
    (disp : List (ℚ × ℚ)) (e : Edge) : List (ℚ × ℚ) :=
  if pinned = some e.src ∨ pinned = some e.dst then disp
  else
    let src_node := nodes.getD e.src default
    let dest_node := nodes.getD e.dst default
    let dx := dest_node.point.1 - src_node.point.1
    let dy := dest_node.point.2 - src_node.point.2
    let dist := max (fsqrt (dx * dx + dy * dy)) (1 / 100)
    let force := dist * dist / k
    let fx := force * dx / dist
    let fy := force * dy / dist
    let ds := disp.getD e.src (0, 0)
    let disp1 := disp.set e.src (ds.1 + fx, ds.2 + fy)
    let dd := disp1.getD e.dst (0, 0)
    disp1.set e.dst (dd.1 - fx, dd.2 - fy)

/-- The attraction phase: fold the attraction body over the edges in
insertion order. -/
def attractiveForces (k : ℚ) (pinned : Option Nat) (edges : List Edge)
    (nodes : List Node) (disp : List (ℚ × ℚ)) : List (ℚ × ℚ) :=
  edges.foldl (attractEdge k pinned nodes) disp

/-- Both force phases of one iteration: reset the accumulator, apply
repulsion, then attraction. -/
def iterationForces (k : ℚ) (pinned : Option Nat) (edges : List Edge)
    (nodes : List Node) : List (ℚ × ℚ) :=
  attractiveForces k pinned edges nodes (repulsiveForces k pinned nodes)

/-- Body of the position-update loop for node `i`: skip the pinned
node; otherwise floor the displacement length at `1e-2`, fold it into
the running maximum, move the node by `temp / disp_len` times its
displacement and clamp into `[50, w-50] × [50, h-50]` (a failing clamp
models the Rust panic). -/
def updateStep (w h temp : ℚ) (pinned : Option Nat)
    (disp : List (ℚ × ℚ)) (st : List Node × ℚ) (i : Nat) :
    Option (List Node × ℚ) :=
  if pinned = some i then some st
  else
    let d := disp.getD i (0, 0)
    let disp_len := flooredLen d
    let md := max st.2 disp_len
    let factor := temp / disp_len
    let node := st.1.getD i default
    let x := node.point.1 + d.1 * factor
    let y := node.point.2 + d.2 * factor
    match clampF x 50 (w - 50), clampF y 50 (h - 50) with
    | some cx, some cy =>
      some (st.1.set i { node with point := (cx, cy) }, md)
    | _, _ => none

/-- The position-update loop of one iteration (`max_displacement` is
reset to `0` at its start, as in the source). -/
def updatePositions (w h temp : ℚ) (pinned : Option Nat)
    (disp : List (ℚ × ℚ)) (nodes : List Node) :
    Option (List Node × ℚ) :=
  (List.range nodes.length).foldlM (updateStep w h temp pinned disp)
    (nodes, 0)

/-- One full iteration of the layout loop: forces then position
update; returns the updated nodes and this iteration's maximum floored
displacement. -/
def layoutStep (w h k : ℚ) (pinned : Option Nat) (edges : List Edge)
    (nodes : List Node) (temp : ℚ) : Option (List Node × ℚ) :=
  updatePositions w h temp pinned (iterationForces k pinned edges nodes)
    nodes

/-- The `for _ in 0..iterations` loop: thread the node positions, the
geometrically cooled temperature, and the last iteration's maximum
displacement (overwritten by each new iteration, `0` if no iteration
ran). -/
def layoutLoop (w h k : ℚ) (pinned : Option Nat) (edges : List Edge) :
    Nat → List Node → ℚ → ℚ → Option (List Node × ℚ)
  | 0, nodes, _, md => some (nodes, md)
  | it + 1, nodes, temp, _ =>
    match layoutStep w h k pinned edges nodes temp with
    | none => none
    | some (nodes', md') =>
      layoutLoop w h k pinned edges it nodes' (temp * (9 / 10)) md'

/-- The ideal edge length of one layout call:
`k = sqrt(width * height / node_count.max(1)) * 1.5`. -/
def layoutK (net : Network) (w h : ℚ) : ℚ :=
  fsqrt (w * h / ((max net.nodes.length 1 : Nat) : ℚ)) * (3 / 2)

/-- `Network::apply_force_directed_layout`: `k = sqrt(w·h / max(n,1)) · 1.5`,
initial temperature `w / 5`, cooling factor `0.9`; returns `none` when
a clamp panics, otherwise the updated network and the final
iteration's maximum displacement. -/
def Network.apply_force_directed_layout (net : Network) (w h : ℚ)
    (iterations : Nat) (pinned : Option Nat) : Option (Network × ℚ) :=
  match layoutLoop w h (layoutK net w h) pinned net.edges iterations
      net.nodes (w / 5) 0 with
  | none => none
  | some (nodes', md) => some ({ net with nodes := nodes' }, md)

/-- States reachable from `Network::new()` by the public mutating
operations (`add_link` and a completed `apply_force_directed_layout`
cover both their success and failure paths). -/
inductive Reachable : Network → Prop
  | new : Reachable Network.new
  | add_node (net : Network) (node : Node) :
      Reachable net → Reachable (net.add_node node).2
  | add_link (net : Network) (link : Link) :
      Reachable net → Reachable (net.add_link link).2
  | layout (net net' : Network) (w h : ℚ) (iterations : Nat)
      (pinned : Option Nat) (md : ℚ) :
      Reachable net →
      net.apply_force_directed_layout w h iterations pinned =
        some (net', md) →
      Reachable net'

/-- The store-map consistency invariant: the id map has exactly one
entry per stored node, maps each stored node's id back to its index,
and its keys are pairwise distinct. -/
def StoreMapConsistent (net : Network) : Prop :=
  net.node_indices.length = net.nodes.length ∧
  (∀ i nd, net.nodes[i]? = some nd →
    idxLookup nd.id net.node_indices = some i) ∧
  (net.node_indices.map Prod.fst).Nodup

/-- Membership of a position in the clamping rectangle
`[50, w-50] × [50, h-50]`. -/
def inBox (w h : ℚ) (p : ℚ × ℚ) : Prop :=
  50 ≤ p.1 ∧ p.1 ≤ w - 50 ∧ 50 ≤ p.2 ∧ p.2 ≤ h - 50

/-- One fold step of the per-iteration maximum-displacement tracker:
skip the pinned node, otherwise fold in the floored displacement
length of node `i`. -/
def mdStep (pinned : Option Nat) (disp : List (ℚ × ℚ)) (m : ℚ)
    (i : Nat) : ℚ :=
  if pinned = some i then m else max m (flooredLen (disp.getD i (0, 0)))

/-- The maximum floored displacement length over the non-pinned nodes
of one iteration (what `max_displacement` holds at the end of an
iteration's update loop). -/
def maxFlooredDisp (pinned : Option Nat) (disp : List (ℚ × ℚ))
    (n : Nat) : ℚ :=
  (List.range n).foldl (mdStep pinned disp) 0

/-- The inner-loop pair block of outer index `i`: the ordered pairs
`(i, j)` for `j in i+1..n`. -/
def pairsFrom (n i : Nat) : List (Nat × Nat) :=
  (List.range' (i + 1) (n - (i + 1))).map (fun j => (i, j))

/-- All ordered pairs `(i, j)` with `i < j < n`, in the order the
unpinned double loop would visit them. -/
def repulsionPairs (n : Nat) : List (Nat × Nat) :=
  (List.range n).flatMap (pairsFrom n)

/-- The hit predicate of `find_node_at_point`: Euclidean distance (in
the model) from `(x, y)` to the node's position is at most `radius`. -/
def hitTest (x y radius : ℚ) (nd : Node) : Prop :=
  fsqrt ((x - nd.point.1) * (x - nd.point.1) +
    (y - nd.point.2) * (y - nd.point.2)) ≤ radius

/-- A one-node network: node `A` at `(100, 100)` (the hit-testing
example of the specification). -/
def netA : Network :=
  { nodes := [{ id := "A", point := (100, 100) }], edges := [],
    node_indices := [("A", 0)] }

/-- A two-node network: `A` at `(100, 100)` and `B` at `(200, 100)`. -/
def netB : Network :=
  { nodes := [{ id := "A", point := (100, 100) },
              { id := "B", point := (200, 100) }], edges := [],
    node_indices := [("A", 0), ("B", 1)] }

/-- A one-node network whose node sits at the origin, outside the
clamping box. -/
def netZero : Network :=
  { nodes := [{ id := "Z", point := (0, 0) }], edges := [],
    node_indices := [("Z", 0)] }

/-- A link whose destination id is absent from `netA` (mirrors the
repository's `test_link_addition_error_handling` test). -/
def linkBad : Link :=
  { link_id := "link_invalid", source_node := "A",
    destination_node := "NonExistent", capacity := 10, weight := 1 }

/-! ### Helper lemmas -/

lemma natSqrt_eval (m r : Nat) (h1 : r * r ≤ m)
    (h2 : m < (r + 1) * (r + 1)) : Nat.sqrt m = r :=
  (Nat.eq_sqrt.mpr ⟨h1, h2⟩).symm

lemma clampF_some_bounds {x lo hi v : ℚ} (hv : clampF x lo hi = some v) :
    lo ≤ v ∧ v ≤ hi := by
  unfold clampF at hv
  split at hv
  · cases hv
  · rename_i hlh
    split at hv
    · cases hv
      exact ⟨le_refl _, le_of_not_lt hlh⟩
    · rename_i hxlo
      split at hv
      · cases hv
        exact ⟨le_of_not_lt hlh, le_refl _⟩
      · rename_i hhix
        cases hv
        exact ⟨le_of_not_lt hxlo, le_of_not_lt hhix⟩

lemma clampF_isSome {x lo hi : ℚ} (hlh : ¬ hi < lo) :
    ∃ v, clampF x lo hi = some v := by
  unfold clampF
  rw [if_neg hlh]
  split
  · exact ⟨_, rfl⟩
  · split
    · exact ⟨_, rfl⟩
    · exact ⟨_, rfl⟩

lemma updateStep_pinned {w h temp : ℚ} {pinned : Option Nat}
    {disp : List (ℚ × ℚ)} {st : List Node × ℚ} {i : Nat}
    (hpin : pinned = some i) :
    updateStep w h temp pinned disp st i = some st := by
  unfold updateStep
  rw [if_pos hpin]

lemma updateStep_some_spec {w h temp : ℚ} {pinned : Option Nat}
    {disp : List (ℚ × ℚ)} {st st' : List Node × ℚ} {i : Nat}
    (hpin : pinned ≠ some i)
    (hstep : updateStep w h temp pinned disp st i = some st') :
    ∃ cx cy, (50 ≤ cx ∧ cx ≤ w - 50 ∧ 50 ≤ cy ∧ cy ≤ h - 50) ∧
      st'.1 = st.1.set i { st.1.getD i default with point := (cx, cy) } ∧
      st'.2 = max st.2 (flooredLen (disp.getD i (0, 0))) := by
  unfold updateStep at hstep
  rw [if_neg hpin] at hstep
  dsimp only at hstep
  split at hstep
  · rename_i cx cy hcx hcy
    cases hstep
    exact ⟨cx, cy,
      ⟨(clampF_some_bounds hcx).1, (clampF_some_bounds hcx).2,
       (clampF_some_bounds hcy).1, (clampF_some_bounds hcy).2⟩, rfl, rfl⟩
  · cases hstep

lemma updateStep_total {w h temp : ℚ} {pinned : Option Nat}
    {disp : List (ℚ × ℚ)} (st : List Node × ℚ) (i : Nat)
    (hw : ¬ w - 50 < 50) (hh : ¬ h - 50 < 50) :
    ∃ st', updateStep w h temp pinned disp st i = some st' := by
  unfold updateStep
  by_cases hpin : pinned = some i
  · rw [if_pos hpin]; exact ⟨st, rfl⟩
  · rw [if_neg hpin]
    dsimp only
    obtain ⟨cx, hcx⟩ := clampF_isSome (x := (st.1.getD i default).point.1 +
      (disp.getD i (0, 0)).1 * (temp / flooredLen (disp.getD i (0, 0)))) hw
    obtain ⟨cy, hcy⟩ := clampF_isSome (x := (st.1.getD i default).point.2 +
      (disp.getD i (0, 0)).2 * (temp / flooredLen (disp.getD i (0, 0)))) hh
    rw [hcx, hcy]
    exact ⟨_, rfl⟩

/-- The main invariant of the position-update fold: over any
duplicate-free index list, a successful fold preserves the length,
leaves untouched and pinned indices unchanged, moves every processed
non-pinned index into the clamping box without changing its id, and
accumulates exactly the floored displacement maxima. -/
lemma updateFold_spec {w h temp : ℚ} {pinned : Option Nat}
    {disp : List (ℚ × ℚ)} :
    ∀ (L : List Nat), L.Nodup → ∀ (st r : List Node × ℚ),
      List.foldlM (updateStep w h temp pinned disp) st L = some r →
      r.1.length = st.1.length ∧
      (∀ j, j ∉ L → r.1[j]? = st.1[j]?) ∧
      (∀ j, pinned = some j → r.1[j]? = st.1[j]?) ∧
      (∀ j, j ∈ L → pinned ≠ some j → ∀ nd, r.1[j]? = some nd →
        nd.id = (st.1.getD j default).id ∧ inBox w h nd.point) ∧
      r.2 = L.foldl (mdStep pinned disp) st.2 := by
  intro L
  induction L with
  | nil =>
    intro _ st r hfold
    rw [List.foldlM_nil] at hfold
    cases hfold
    exact ⟨rfl, fun _ _ => rfl, fun _ _ => rfl,
      fun j hj => absurd hj (List.not_mem_nil j), rfl⟩
  | cons i L ih =>
    intro hndc st r hfold
    obtain ⟨hiL, hndL⟩ := List.nodup_cons.mp hndc
    rw [List.foldlM_cons] at hfold
    rcases hstep : updateStep w h temp pinned disp st i with _ | st₁
    · rw [hstep] at hfold
      simp at hfold
    rw [hstep] at hfold
    have hrest : List.foldlM (updateStep w h temp pinned disp) st₁ L =
        some r := hfold
    by_cases hpin : pinned = some i
    · rw [updateStep_pinned hpin] at hstep
      cases hstep.symm
      obtain ⟨hlen, hnotin, hpinned, hbox, hmd⟩ := ih hndL _ _ hrest
      refine ⟨hlen, ?_, hpinned, ?_, ?_⟩
      · intro j hj
        exact hnotin j (fun hmem => hj (List.mem_cons_of_mem i hmem))
      · intro j hj hjpin nd hnd
        rcases List.mem_cons.mp hj with rfl | hj'
        · exact absurd hpin hjpin
        · exact hbox j hj' hjpin nd hnd
      · rw [hmd, List.foldl_cons, mdStep, if_pos hpin]
    · obtain ⟨cx, cy, hbounds, hst1, hmd1⟩ :=
        updateStep_some_spec hpin hstep
      obtain ⟨hlen, hnotin, hpinned, hbox, hmd⟩ := ih hndL _ _ hrest
      have hset_ne : ∀ j, j ≠ i → st₁.1[j]? = st.1[j]? := by
        intro j hj
        rw [hst1, List.getElem?_set_ne (fun he => hj he.symm)]
      refine ⟨?_, ?_, ?_, ?_, ?_⟩
      · rw [hlen, hst1, List.length_set]
      · intro j hj
        have hji : j ≠ i := fun he => hj (he ▸ List.mem_cons_self i L)
        rw [hnotin j (fun hmem => hj (List.mem_cons_of_mem i hmem)),
          hset_ne j hji]
      · intro j hjpin
        have hji : j ≠ i := fun he => hpin (he ▸ hjpin)
        rw [hpinned j hjpin, hset_ne j hji]
      · intro j hj hjpin nd hnd
        rcases List.mem_cons.mp hj with rfl | hj'
        · rw [hnotin j hiL, hst1, List.getElem?_set_self'] at hnd
          rcases hmem : st.1[j]? with _ | nd₀
          · rw [hmem] at hnd; cases hnd
          · rw [hmem] at hnd
            cases hnd
            exact ⟨rfl, hbounds.1, hbounds.2.1, hbounds.2.2.1,
              hbounds.2.2.2⟩
        · have hji : j ≠ i := fun he => hiL (he ▸ hj')
          obtain ⟨hid, hbx⟩ := hbox j hj' hjpin nd hnd
          refine ⟨?_, hbx⟩
          rw [hid, List.getD_eq_getElem?_getD, hset_ne j hji,
            ← List.getD_eq_getElem?_getD]
      · rw [hmd, hmd1, List.foldl_cons, mdStep, if_neg hpin]

lemma updateFold_total {w h temp : ℚ} {pinned : Option Nat}
    {disp : List (ℚ × ℚ)} (hw : ¬ w - 50 < 50) (hh : ¬ h - 50 < 50) :
    ∀ (L : List Nat) (st : List Node × ℚ),
      ∃ r, List.foldlM (updateStep w h temp pinned disp) st L = some r := by
  intro L
  induction L with
  | nil => intro st; exact ⟨st, List.foldlM_nil _ _⟩
  | cons i L ih =>
    intro st
    obtain ⟨st₁, hst₁⟩ := @updateStep_total w h temp pinned disp st i hw hh
    obtain ⟨r, hr⟩ := ih st₁
    refine ⟨r, ?_⟩
    rw [List.foldlM_cons, hst₁]
    exact hr

lemma layoutStep_some_spec {w h k temp : ℚ} {pinned : Option Nat}
    {edges : List Edge} {nodes : List Node} {r : List Node × ℚ}
    (hstep : layoutStep w h k pinned edges nodes temp = some r) :
    r.1.length = nodes.length ∧
    (∀ j : Nat, pinned = some j → r.1[j]? = nodes[j]?) ∧
    (∀ j : Nat, (r.1[j]?).map Node.id = (nodes[j]?).map Node.id) ∧
    (∀ (j : Nat) (nd : Node), pinned ≠ some j → r.1[j]? = some nd → inBox w h nd.point) ∧
    r.2 = maxFlooredDisp pinned (iterationForces k pinned edges nodes)
      nodes.length := by
  unfold layoutStep updatePositions at hstep
  obtain ⟨hlen, hnotin, hpinned, hbox, hmd⟩ :=
    updateFold_spec (List.range nodes.length) (List.nodup_range _)
      (nodes, 0) r hstep
  have hlen' : r.1.length = nodes.length := hlen
  refine ⟨hlen', hpinned, ?_, ?_, hmd⟩
  · intro j
    by_cases hj : j < nodes.length
    · by_cases hjpin : pinned = some j
      · rw [hpinned j hjpin]
      · have hj' : j < r.1.length := hlen' ▸ hj
        rw [List.getElem?_eq_getElem hj', List.getElem?_eq_getElem hj]
        have := (hbox j (List.mem_range.mpr hj) hjpin (r.1[j])
          (List.getElem?_eq_getElem hj')).1
        rw [Option.map_some', Option.map_some', this,
          List.getD_eq_getElem _ _ hj]
    · rw [hnotin j (fun hmem => hj (List.mem_range.mp hmem))]
  · intro j nd hjpin hnd
    by_cases hj : j < nodes.length
    · exact (hbox j (List.mem_range.mpr hj) hjpin nd hnd).2
    · rw [hnotin j (fun hmem => hj (List.mem_range.mp hmem)),
        List.getElem?_eq_none (le_of_not_lt hj)] at hnd
      cases hnd

lemma layoutStep_total {w h k temp : ℚ} {pinned : Option Nat}
    {edges : List Edge} (nodes : List Node)
    (hw : ¬ w - 50 < 50) (hh : ¬ h - 50 < 50) :
    ∃ r, layoutStep w h k pinned edges nodes temp = some r := by
  unfold layoutStep updatePositions
  exact updateFold_total hw hh _ _

lemma layoutLoop_len_ids_pinned {w h k : ℚ} {pinned : Option Nat}
    {edges : List Edge} :
    ∀ (it : Nat) (nodes : List Node) (temp md : ℚ) (r : List Node × ℚ),
      layoutLoop w h k pinned edges it nodes temp md = some r →
      r.1.length = nodes.length ∧
      (∀ j : Nat, pinned = some j → r.1[j]? = nodes[j]?) ∧
      (∀ j : Nat, (r.1[j]?).map Node.id = (nodes[j]?).map Node.id) ∧
      (it = 0 → r = (nodes, md)) := by
  intro it
  induction it with
  | zero =>
    intro nodes temp md r hloop
    cases hloop
    exact ⟨rfl, fun _ _ => rfl, fun _ => rfl, fun _ => rfl⟩
  | succ it ih =>
    intro nodes temp md r hloop
    simp only [layoutLoop] at hloop
    rcases hs : layoutStep w h k pinned edges nodes temp with _ | ⟨nodes₁, md₁⟩
    · rw [hs] at hloop; cases hloop
    · rw [hs] at hloop
      have hloop' : layoutLoop w h k pinned edges it nodes₁
          (temp * (9 / 10)) md₁ = some r := hloop
      obtain ⟨hlen, hpinned, hids, _⟩ := ih nodes₁ _ _ r hloop'
      obtain ⟨hlen₀, hpinned₀, hids₀, _, _⟩ := layoutStep_some_spec hs
      refine ⟨hlen.trans hlen₀, ?_, ?_, fun hz => absurd hz (Nat.succ_ne_zero it)⟩
      · intro j hjpin
        rw [hpinned j hjpin, hpinned₀ j hjpin]
      · intro j
        rw [hids j, hids₀ j]

lemma layoutLoop_box {w h k : ℚ} {pinned : Option Nat}
    {edges : List Edge} :
    ∀ (it : Nat) (nodes : List Node) (temp md : ℚ) (r : List Node × ℚ),
      layoutLoop w h k pinned edges (it + 1) nodes temp md = some r →
      ∀ (j : Nat) (nd : Node), pinned ≠ some j → r.1[j]? = some nd →
        inBox w h nd.point := by
  intro it
  induction it with
  | zero =>
    intro nodes temp md r hloop
    simp only [layoutLoop] at hloop
    rcases hs : layoutStep w h k pinned edges nodes temp with _ | ⟨nodes₁, md₁⟩
    · rw [hs] at hloop; cases hloop
    · rw [hs] at hloop
      cases hloop
      intro j nd hjpin hnd
      exact (layoutStep_some_spec hs).2.2.2.1 j nd hjpin hnd
  | succ it ih =>
    intro nodes temp md r hloop
    rw [show it + 1 + 1 = (it + 1) + 1 from rfl] at hloop
    simp only [layoutLoop] at hloop
    rcases hs : layoutStep w h k pinned edges nodes temp with _ | ⟨nodes₁, md₁⟩
    · rw [hs] at hloop; cases hloop
    · rw [hs] at hloop
      have hloop' : layoutLoop w h k pinned edges (it + 1) nodes₁
          (temp * (9 / 10)) md₁ = some r := hloop
      exact ih nodes₁ _ _ r hloop'

lemma layoutLoop_last {w h k : ℚ} {pinned : Option Nat}
    {edges : List Edge} :
    ∀ (it : Nat) (nodes : List Node) (temp md : ℚ) (r : List Node × ℚ),
      layoutLoop w h k pinned edges (it + 1) nodes temp md = some r →
      ∃ ns t, layoutStep w h k pinned edges ns t = some (r.1, r.2) ∧
        ns.length = nodes.length := by
  intro it
  induction it with
  | zero =>
    intro nodes temp md r hloop
    simp only [layoutLoop] at hloop
    rcases hs : layoutStep w h k pinned edges nodes temp with _ | ⟨nodes₁, md₁⟩
    · rw [hs] at hloop; cases hloop
    · rw [hs] at hloop
      cases hloop
      exact ⟨nodes, temp, hs, rfl⟩
  | succ it ih =>
    intro nodes temp md r hloop
    rw [show it + 1 + 1 = (it + 1) + 1 from rfl] at hloop
    simp only [layoutLoop] at hloop
    rcases hs : layoutStep w h k pinned edges nodes temp with _ | ⟨nodes₁, md₁⟩
    · rw [hs] at hloop; cases hloop
    · rw [hs] at hloop
      have hloop' : layoutLoop w h k pinned edges (it + 1) nodes₁
          (temp * (9 / 10)) md₁ = some r := hloop
      obtain ⟨ns, t, hstep, hlen⟩ := ih nodes₁ _ _ r hloop'
      exact ⟨ns, t, hstep, hlen.trans (layoutStep_some_spec hs).1⟩

lemma layoutLoop_total {w h k : ℚ} {pinned : Option Nat}
    {edges : List Edge} (hw : ¬ w - 50 < 50) (hh : ¬ h - 50 < 50) :
    ∀ (it : Nat) (nodes : List Node) (temp md : ℚ),
      ∃ r, layoutLoop w h k pinned edges it nodes temp md = some r := by
  intro it
  induction it with
  | zero => intro nodes temp md; exact ⟨(nodes, md), rfl⟩
  | succ it ih =>
    intro nodes temp md
    obtain ⟨⟨nodes₁, md₁⟩, hst⟩ :=
      @layoutStep_total w h k temp pinned edges nodes hw hh
    obtain ⟨r, hr⟩ := ih nodes₁ (temp * (9 / 10)) md₁
    refine ⟨r, ?_⟩
    simp only [layoutLoop]
    rw [hst]
    exact hr

lemma flooredLen_ge (d : ℚ × ℚ) : 1 / 100 ≤ flooredLen d :=
  le_max_right _ _

lemma le_foldl_mdStep {pinned : Option Nat} {disp : List (ℚ × ℚ)} :
    ∀ (L : List Nat) (m : ℚ), m ≤ L.foldl (mdStep pinned disp) m := by
  intro L
  induction L with
  | nil => intro m; exact le_refl m
  | cons a L ih =>
    intro m
    rw [List.foldl_cons]
    refine le_trans ?_ (ih (mdStep pinned disp m a))
    unfold mdStep
    split
    · exact le_refl m
    · exact le_max_left _ _

lemma foldl_mdStep_ge {pinned : Option Nat} {disp : List (ℚ × ℚ)} :
    ∀ (L : List Nat) (m : ℚ) (i : Nat), i ∈ L → pinned ≠ some i →
      1 / 100 ≤ L.foldl (mdStep pinned disp) m := by
  intro L
  induction L with
  | nil => intro m i hi; exact absurd hi (List.not_mem_nil i)
  | cons a L ih =>
    intro m i hi hpin
    rw [List.foldl_cons]
    rcases List.mem_cons.mp hi with rfl | hi'
    · refine le_trans ?_ (le_foldl_mdStep L (mdStep pinned disp m i))
      unfold mdStep
      rw [if_neg hpin]
      exact le_trans (flooredLen_ge _) (le_max_right _ _)
    · exact ih (mdStep pinned disp m a) i hi' hpin

lemma maxFlooredDisp_ge {pinned : Option Nat} {disp : List (ℚ × ℚ)}
    {n i : Nat} (hi : i < n) (hpin : pinned ≠ some i) :
    1 / 100 ≤ maxFlooredDisp pinned disp n :=
  foldl_mdStep_ge (List.range n) 0 i (List.mem_range.mpr hi) hpin

/-! ### The repulsion phase as a fold over unordered index pairs -/

lemma foldl_flatMap {α β γ : Type _} (g : α → List β) (step : γ → β → γ) :
    ∀ (L : List α) (init : γ),
      (L.flatMap g).foldl step init =
        L.foldl (fun acc a => (g a).foldl step acc) init := by
  intro L
  induction L with
  | nil => intro init; rfl
  | cons a L ih =>
    intro init
    rw [List.flatMap_cons, List.foldl_append, List.foldl_cons, ih]

lemma filter_mk_fst (i p : Nat) (l : List Nat) :
    (l.map (fun j => (i, j))).filter (fun pr => pr.1 ≠ p) =
      if i = p then [] else l.map (fun j => (i, j)) := by
  induction l with
  | nil => simp
  | cons a l ih =>
    by_cases hip : i = p
    · subst hip
      simp only [if_pos rfl] at ih ⊢
      simp [List.filter_cons, ih]
    · simp only [if_neg hip] at ih ⊢
      simp [List.filter_cons, ih, hip]

lemma filter_flatMap_pairsFrom (n p : Nat) :
    ∀ L : List Nat,
      (L.flatMap (pairsFrom n)).filter (fun pr => pr.1 ≠ p) =
        L.flatMap (fun i => if i = p then [] else pairsFrom n i) := by
  intro L
  induction L with
  | nil => rfl
  | cons a L ih =>
    rw [List.flatMap_cons, List.flatMap_cons, List.filter_append, ih]
    congr 1
    exact filter_mk_fst a p _

lemma filter_repulsionPairs (n p : Nat) :
    (repulsionPairs n).filter (fun pr => pr.1 ≠ p) =
      (List.range n).flatMap
        (fun i => if i = p then [] else pairsFrom n i) :=
  filter_flatMap_pairsFrom n p (List.range n)

lemma mem_repulsionPairs (n i j : Nat) :
    (i, j) ∈ repulsionPairs n ↔ i < j ∧ j < n := by
  unfold repulsionPairs pairsFrom
  simp only [List.mem_flatMap, List.mem_range, List.mem_map,
    List.mem_range'_1, Prod.mk.injEq]
  constructor
  · rintro ⟨a, ha, j', ⟨hj1, hj2⟩, rfl, rfl⟩
    omega
  · rintro ⟨hij, hjn⟩
    exact ⟨i, by omega, j, ⟨by omega, by omega⟩, rfl, rfl⟩

/-- The repulsion phase with a pinned node equals the fold of the pair
body over exactly those ordered pairs `(i, j)`, `i < j < n`, whose
lower index is not the pinned one. -/
lemma repulsiveForces_pinned_eq (k : ℚ) (nodes : List Node) (p : Nat) :
    repulsiveForces k (some p) nodes =
      ((repulsionPairs nodes.length).filter (fun pr => pr.1 ≠ p)).foldl
        (repulsePair k nodes) (List.replicate nodes.length (0, 0)) := by
  unfold repulsiveForces
  dsimp only
  rw [filter_repulsionPairs, foldl_flatMap]
  congr 1
  funext disp i
  by_cases hip : p = i
  · rw [if_pos (show some p = some i by rw [hip]), if_pos hip.symm,
      List.foldl_nil]
  · rw [if_neg (fun hc => hip (Option.some.inj hc)),
      if_neg (fun hc => hip hc.symm)]
    unfold pairsFrom
    rw [List.foldl_map]

/-! ### `find_node_at_point` -/

lemma findFrom_spec (x y radius : ℚ) :
    ∀ (l : List Node) (i0 : Nat),
      (∀ i, findFrom x y radius i0 l = some i →
        ∃ j, i = i0 + j ∧ ∃ nd, l[j]? = some nd ∧ hitTest x y radius nd ∧
          ∀ (j' : Nat) (nd' : Node), j' < j → l[j']? = some nd' →
            ¬ hitTest x y radius nd') ∧
      (findFrom x y radius i0 l = none ↔
        ∀ (j : Nat) (nd : Node), l[j]? = some nd →
          ¬ hitTest x y radius nd) := by
  intro l
  induction l with
  | nil =>
    intro i0
    constructor
    · intro i h
      simp [findFrom] at h
    · constructor
      · intro _ j nd hnd
        simp at hnd
      · intro _
        rfl
  | cons nd0 rest ih =>
    intro i0
    have hff : findFrom x y radius i0 (nd0 :: rest) =
        if fsqrt ((x - nd0.point.1) * (x - nd0.point.1) +
            (y - nd0.point.2) * (y - nd0.point.2)) ≤ radius then some i0
        else findFrom x y radius (i0 + 1) rest := rfl
    by_cases hh : fsqrt ((x - nd0.point.1) * (x - nd0.point.1) +
        (y - nd0.point.2) * (y - nd0.point.2)) ≤ radius
    · rw [if_pos hh] at hff
      constructor
      · intro i h
        rw [hff] at h
        cases h
        refine ⟨0, (Nat.add_zero i0).symm, nd0, by simp, hh,
          fun j' nd' hj' => absurd hj' (Nat.not_lt_zero j')⟩
      · rw [hff]
        constructor
        · intro h; cases h
        · intro hall
          exact absurd hh (hall 0 nd0 (by simp))
    · have hh' : ¬ hitTest x y radius nd0 := hh
      rw [if_neg hh] at hff
      obtain ⟨iha, ihb⟩ := ih (i0 + 1)
      constructor
      · intro i h
        rw [hff] at h
        obtain ⟨j, hij, nd, hnd, hhit, hfirst⟩ := iha i h
        refine ⟨j + 1, by omega, nd, by simpa using hnd, hhit, ?_⟩
        intro j' nd' hj' hnd'
        match j' with
        | 0 =>
          rw [List.getElem?_cons_zero] at hnd'
          cases hnd'
          exact hh'
        | j'' + 1 =>
          rw [List.getElem?_cons_succ] at hnd'
          exact hfirst j'' nd' (by omega) hnd'
      · rw [hff, ihb]
        constructor
        · intro hall j nd hnd
          match j with
          | 0 =>
            rw [List.getElem?_cons_zero] at hnd
            cases hnd
            exact hh'

          | j'' + 1 =>
            rw [List.getElem?_cons_succ] at hnd
            exact hall j'' nd hnd
        · intro hall j nd hnd
          exact hall (j + 1) nd (by simpa using hnd)

/-! ### Evaluating `fsqrt` at concrete rationals -/

lemma fsqrt_eval_nat (q : ℚ) (m r : Nat) (hq : 0 < q)
    (hnum : q.num.toNat * q.den = m) (h1 : r * r ≤ m)
    (h2 : m < (r + 1) * (r + 1)) (hden : q.den = 1) :
    fsqrt q = r := by
  unfold fsqrt
  rw [if_neg (not_le.mpr hq), hnum, natSqrt_eval m r h1 h2, hden]
  norm_num

lemma fsqrt_fifty : fsqrt 50 = 7 :=
  fsqrt_eval_nat 50 50 7 (by norm_num) (by norm_num; rfl) (by norm_num)
    (by norm_num) (by norm_num)

lemma fsqrt_ten_thousand : fsqrt 10000 = 100 :=
  fsqrt_eval_nat 10000 10000 100 (by norm_num) (by norm_num; rfl)
    (by norm_num) (by norm_num) (by norm_num)

lemma fsqrt_twenty_thousand : fsqrt 20000 = 141 :=
  fsqrt_eval_nat 20000 20000 141 (by norm_num) (by norm_num; rfl)
    (by norm_num) (by norm_num) (by norm_num)

/-! ### The store-map invariant -/

lemma idxLookup_eq_none_iff (s : String) :
    ∀ m : List (String × Nat),
      idxLookup s m = none ↔ s ∉ m.map Prod.fst := by
  intro m
  induction m with
  | nil => simp [idxLookup]
  | cons kv m ih =>
    obtain ⟨k, v⟩ := kv
    simp only [idxLookup, List.map_cons, List.mem_cons]
    by_cases hk : k = s
    · subst hk
      simp
    · rw [if_neg hk, ih]
      constructor
      · intro hnone hmem
        rcases hmem with he | hmem
        · exact hk he.symm
        · exact hnone hmem
      · intro hni hmem
        exact hni (Or.inr hmem)

lemma store_inv_new : StoreMapConsistent Network.new := by
  refine ⟨rfl, ?_, List.nodup_nil⟩
  intro i nd hnd
  cases hnd

lemma store_inv_add_node (net : Network) (nd : Node)
    (h : StoreMapConsistent net) :
    StoreMapConsistent (net.add_node nd).2 := by
  obtain ⟨hlen, hmap, hnd'⟩ := h
  unfold Network.add_node
  rcases hlook : idxLookup nd.id net.node_indices with _ | idx
  · dsimp only
    refine ⟨?_, ?_, ?_⟩
    · simpa using hlen
    · intro i nd' hnd''
      simp only at hnd''
      rcases Nat.lt_trichotomy i net.nodes.length with hi | hi | hi
      · rw [List.getElem?_append, if_pos hi] at hnd''
        have hiold := hmap i nd' hnd''
        have hne : nd.id ≠ nd'.id := by
          intro he
          rw [he, hiold] at hlook
          cases hlook
        simp only [idxLookup, if_neg hne]
        exact hiold
      · subst hi
        rw [List.getElem?_concat_length] at hnd''
        cases hnd''
        simp [idxLookup]
      · rw [List.getElem?_eq_none (by simp; omega)] at hnd''
        cases hnd''
    · refine List.nodup_cons.mpr ⟨?_, hnd'⟩
      exact (idxLookup_eq_none_iff nd.id net.node_indices).mp hlook
  · exact ⟨hlen, hmap, hnd'⟩

lemma store_inv_add_link (net : Network) (link : Link)
    (h : StoreMapConsistent net) :
    StoreMapConsistent (net.add_link link).2 := by
  unfold Network.add_link
  rcases idxLookup link.source_node net.node_indices with _ | si
  · exact h
  · rcases idxLookup link.destination_node net.node_indices with _ | di
    · exact h
    · exact h

lemma store_inv_layout (net net' : Network) (w hgt : ℚ) (it : Nat)
    (p : Option Nat) (md : ℚ) (h : StoreMapConsistent net)
    (hl : net.apply_force_directed_layout w hgt it p = some (net', md)) :
    StoreMapConsistent net' := by
  obtain ⟨hlen, hmap, hnd⟩ := h
  unfold Network.apply_force_directed_layout at hl
  rcases hr : layoutLoop w hgt (layoutK net w hgt)
      p net.edges it net.nodes (w / 5) 0 with _ | ⟨nodes₁, md₁⟩
  · rw [hr] at hl
    cases hl
  · obtain ⟨hlen₁, _, hids, _⟩ :=
      layoutLoop_len_ids_pinned it net.nodes (w / 5) 0 (nodes₁, md₁) hr
    rw [hr] at hl
    cases hl
    refine ⟨hlen.trans hlen₁.symm, ?_, hnd⟩
    intro i nd₁ hnd₁
    have hid := hids i
    rw [hnd₁] at hid
    rcases hmem : net.nodes[i]? with _ | nd₀
    · rw [hmem] at hid
      cases hid
    · rw [hmem] at hid
      have : nd₁.id = nd₀.id := by
        simpa using hid
      rw [this]
      exact hmap i nd₀ hmem

/-- Any reachable state satisfies the store-map invariant. -/
lemma reachable_consistent {net : Network} (h : Reachable net) :
    StoreMapConsistent net := by
  induction h with
  | new => exact store_inv_new
  | add_node net nd _ ih => exact store_inv_add_node net nd ih
  | add_link net link _ ih => exact store_inv_add_link net link ih
  | layout net net' w hgt it p md _ hl ih =>
    exact store_inv_layout net net' w hgt it p md ih hl

/-! ### Claims -/

/-- C5: `add_node` is idempotent on ids.  If the id is already mapped
to index `i`, `add_node` returns `i` and leaves the store (in
particular the stored position and the node count) unchanged; for a
fresh id it appends the node at the next sequential index and records
the id-to-index mapping; re-inserting the same id with a possibly
different position returns the index of the first insertion and
changes nothing. -/
theorem claim_C5_add_node_idempotent :
    (∀ (net : Network) (s : String) (q : ℚ × ℚ) (i : Nat),
      idxLookup s net.node_indices = some i →
      net.add_node { id := s, point := q } = (i, net)) ∧
    (∀ (net : Network) (s : String) (q : ℚ × ℚ),
      idxLookup s net.node_indices = none →
      net.add_node { id := s, point := q } =
        (net.nodes.length,
          { net with
              nodes := net.nodes ++ [{ id := s, point := q }],
              node_indices := (s, net.nodes.length) ::
                net.node_indices })) ∧
    (∀ (net : Network) (s : String) (q₁ q₂ : ℚ × ℚ),
      (net.add_node { id := s, point := q₁ }).2.add_node
          { id := s, point := q₂ } =
        ((net.add_node { id := s, point := q₁ }).1,
         (net.add_node { id := s, point := q₁ }).2)) := by
  refine ⟨?_, ?_, ?_⟩
  · intro net s q i hl
    unfold Network.add_node
    rw [hl]
  · intro net s q hl
    unfold Network.add_node
    rw [hl]
  · intro net s q₁ q₂
    rcases hl : idxLookup s net.node_indices with _ | i
    · have h₁ : net.add_node { id := s, point := q₁ } =
          (net.nodes.length,
            { net with
                nodes := net.nodes ++ [{ id := s, point := q₁ }],
                node_indices := (s, net.nodes.length) ::
                  net.node_indices }) := by
        unfold Network.add_node; rw [hl]
      rw [h₁]
      unfold Network.add_node
      simp [idxLookup]
    · have h₁ : net.add_node { id := s, point := q₁ } = (i, net) := by
        unfold Network.add_node; rw [hl]
      rw [h₁]
      unfold Network.add_node
      rw [hl]

/-- C5 witness: re-inserting id `A` into `netA` with a different
position returns the stored index `0` and leaves `netA` unchanged. -/
theorem claim_C5_witness :
    idxLookup "A" netA.node_indices = some 0 ∧
    netA.add_node { id := "A", point := (7, 7) } = (0, netA) :=
  ⟨by simp [netA, idxLookup],
   claim_C5_add_node_idempotent.1 netA "A" (7, 7) 0
     (by simp [netA, idxLookup])⟩

/-- C6: `add_link` fails with `NodeNotFound` naming a missing endpoint
id exactly when the source or destination id is absent; on failure the
store is unmutated, and when both endpoints resolve it appends exactly
one edge carrying the link payload and returns `Ok(())`. -/
theorem claim_C6_add_link_validation :
    ∀ (net : Network) (link : Link),
      ((∃ id, (net.add_link link).1 =
          .error (.NodeNotFound id)) ↔
        (idxLookup link.source_node net.node_indices = none ∨
         idxLookup link.destination_node net.node_indices = none)) ∧
      (∀ id, (net.add_link link).1 = .error (.NodeNotFound id) →
        idxLookup id net.node_indices = none ∧
        (id = link.source_node ∨ id = link.destination_node) ∧
        (net.add_link link).2 = net) ∧
      (∀ si di, idxLookup link.source_node net.node_indices = some si →
        idxLookup link.destination_node net.node_indices = some di →
        net.add_link link =
          (.ok (), { net with edges := net.edges ++
             [{ src := si, dst := di, link := link }] })) := by
  intro net link
  unfold Network.add_link
  rcases hs : idxLookup link.source_node net.node_indices with _ | si
  · refine ⟨⟨fun _ => Or.inl rfl, fun _ => ⟨link.source_node, rfl⟩⟩, ?_, ?_⟩
    · intro id hid
      dsimp only at hid
      cases hid
      exact ⟨hs, Or.inl rfl, rfl⟩
    · intro si di hsi
      cases hsi
  · rcases hd : idxLookup link.destination_node net.node_indices with _ | di
    · refine ⟨⟨fun _ => Or.inr rfl, fun _ =>
        ⟨link.destination_node, rfl⟩⟩, ?_, ?_⟩
      · intro id hid
        dsimp only at hid
        cases hid
        exact ⟨hd, Or.inr rfl, rfl⟩
      · intro si' di' hsi hdi
        cases hdi
    · refine ⟨⟨?_, ?_⟩, ?_, ?_⟩
      · rintro ⟨id, hid⟩
        dsimp only at hid
        cases hid
      · rintro (hc | hc)
        · cases hc
        · cases hc
      · intro id hid
        dsimp only at hid
        cases hid
      · intro si' di' hsi hdi
        cases hsi
        cases hdi
        rfl

/-- C6 witness: adding a link from `A` to the never-added id
`NonExistent` fails with `NodeNotFound "NonExistent"` and leaves the
store unchanged. -/
theorem claim_C6_witness :
    (netA.add_link linkBad).1 =
      .error (.NodeNotFound "NonExistent") ∧
    (netA.add_link linkBad).2 = netA :=
  ⟨by simp [Network.add_link, netA, linkBad, idxLookup],
   ((claim_C6_add_link_validation netA linkBad).2.1 "NonExistent"
     (by simp [Network.add_link, netA, linkBad, idxLookup])).2.2⟩

/-- C7: `find_node_at_point` returns the first node in insertion order
whose model distance from the query point is at most `radius`, and
`none` exactly when no node qualifies; concretely, for the single node
at `(100, 100)`, the query `(105, 105)` with radius `18` hits index
`0` and the query `(200, 200)` misses. -/
theorem claim_C7_find_node_at_point :
    (∀ (net : Network) (x y radius : ℚ) (i : Nat),
      net.find_node_at_point x y radius = some i →
        ∃ nd, net.nodes[i]? = some nd ∧ hitTest x y radius nd ∧
          ∀ (j : Nat) (nd' : Node), j < i → net.nodes[j]? = some nd' →
            ¬ hitTest x y radius nd') ∧
    (∀ (net : Network) (x y radius : ℚ),
      net.find_node_at_point x y radius = none ↔
        ∀ (i : Nat) (nd : Node), net.nodes[i]? = some nd →
          ¬ hitTest x y radius nd) ∧
    netA.find_node_at_point 105 105 18 = some 0 ∧
    netA.find_node_at_point 200 200 18 = none := by
  refine ⟨?_, ?_, ?_, ?_⟩
  · intro net x y radius i hfind
    obtain ⟨j, hij, nd, hnd, hhit, hfirst⟩ :=
      (findFrom_spec x y radius net.nodes 0).1 i hfind
    have hji : j = i := by omega
    subst hji
    exact ⟨nd, hnd, hhit, hfirst⟩
  · intro net x y radius
    exact (findFrom_spec x y radius net.nodes 0).2
  · show findFrom 105 105 18 0 netA.nodes = some 0
    have h50 : ((105 : ℚ) - 100) * (105 - 100) + (105 - 100) * (105 - 100)
        = 50 := by norm_num
    unfold netA findFrom
    dsimp only
    rw [h50, if_pos (by rw [fsqrt_fifty]; norm_num)]
  · show findFrom 200 200 18 0 netA.nodes = none
    have h20000 : ((200 : ℚ) - 100) * (200 - 100) +
        (200 - 100) * (200 - 100) = 20000 := by norm_num
    unfold netA findFrom
    dsimp only
    rw [h20000, if_neg (by rw [fsqrt_twenty_thousand]; norm_num)]
    rfl

/-- C7 witness: the hit at `(105, 105)` is the first (and only) node,
with no earlier candidate. -/
theorem claim_C7_witness :
    netA.find_node_at_point 105 105 18 = some 0 ∧
    ∃ nd, netA.nodes[0]? = some nd ∧ hitTest 105 105 18 nd ∧
      ∀ (j : Nat) (nd' : Node), j < 0 → netA.nodes[j]? = some nd' →
        ¬ hitTest 105 105 18 nd' :=
  ⟨claim_C7_find_node_at_point.2.2.1,
   claim_C7_find_node_at_point.1 netA 105 105 18 0
     claim_C7_find_node_at_point.2.2.1⟩

/-- C9: in every reachable state the id map has exactly one entry per
stored node and maps each stored node's id to its index; hence
distinct stored nodes have distinct ids. -/
theorem claim_C9_store_map_consistency :
    ∀ net : Network, Reachable net →
      StoreMapConsistent net ∧
      ∀ (i j : Nat) (nd₁ nd₂ : Node), net.nodes[i]? = some nd₁ →
        net.nodes[j]? = some nd₂ → nd₁.id = nd₂.id → i = j := by
  intro net h
  obtain ⟨hlen, hmap, hnd⟩ := reachable_consistent h
  refine ⟨⟨hlen, hmap, hnd⟩, ?_⟩
  intro i j nd₁ nd₂ h₁ h₂ hid
  have hi := hmap i nd₁ h₁
  have hj := hmap j nd₂ h₂
  rw [hid, hj] at hi
  exact (Option.some.inj hi).symm

/-- C9 witness: the invariant holds at the freshly created store. -/
theorem claim_C9_witness : StoreMapConsistent Network.new :=
  (claim_C9_store_map_consistency Network.new Reachable.new).1

/-! ### Concrete layout evaluations used by the layout claims -/

/-- One unpinned layout iteration on the single-node network `netA`:
the lone node accumulates no force, its floored displacement length is
the `1e-2` floor, and the clamped position stays at `(100, 100)`. -/
lemma netA_layout_eval :
    netA.apply_force_directed_layout 200 200 1 none =
      some (netA, 1 / 100) := by
  simp [Network.apply_force_directed_layout, layoutK, layoutLoop,
    layoutStep, updatePositions, iterationForces, attractiveForces,
    repulsiveForces, netA, updateStep, flooredLen, clampF, fsqrt,
    List.range_succ, List.foldlM_cons, List.foldlM_nil]
  norm_num

/-- One layout iteration on `netA` with its only node pinned: the
update loop skips the node, so nothing moves and the returned maximum
displacement stays `0`. -/
lemma netA_layout_pinned_eval :
    netA.apply_force_directed_layout 200 200 1 (some 0) =
      some (netA, 0) := by
  simp [Network.apply_force_directed_layout, layoutK, layoutLoop,
    layoutStep, updatePositions, iterationForces, attractiveForces,
    repulsiveForces, netA, updateStep, flooredLen, clampF, fsqrt,
    List.range_succ, List.foldlM_cons, List.foldlM_nil]

/-- C4: whenever a layout call with a pinned node completes, the
pinned node's stored entry (id and position) is identical before and
after the call; the model never even reads or writes it in the update
loop, which is the bit-for-bit claim of the source. -/
theorem claim_C4_pinned_bit_for_bit :
    ∀ (net : Network) (w h : ℚ) (it : Nat) (p : Nat) (r : Network × ℚ),
      net.apply_force_directed_layout w h it (some p) = some r →
      r.1.nodes[p]? = net.nodes[p]? := by
  intro net w h it p r hl
  unfold Network.apply_force_directed_layout at hl
  rcases hr : layoutLoop w h (layoutK net w h) (some p) net.edges it
      net.nodes (w / 5) 0 with _ | ⟨nodes₁, md₁⟩
  · rw [hr] at hl
    cases hl
  · rw [hr] at hl
    cases hl
    exact (layoutLoop_len_ids_pinned it net.nodes (w / 5) 0
      (nodes₁, md₁) hr).2.1 p rfl

/-- C4 witness: pinning the only node of `netA` through one iteration
leaves its entry untouched. -/
theorem claim_C4_witness :
    netA.apply_force_directed_layout 200 200 1 (some 0) =
      some (netA, 0) ∧
    (netA, (0 : ℚ)).1.nodes[0]? = netA.nodes[0]? :=
  ⟨netA_layout_pinned_eval,
   claim_C4_pinned_bit_for_bit netA 200 200 1 0 (netA, 0)
     netA_layout_pinned_eval⟩

/-- C10: a completed layout call changes only node positions — node
count, every node's id, the edge list (hence every link payload and
its endpoints) and the id map are untouched — and with `iterations = 0`
it returns the unchanged network and `0.0`. -/
theorem claim_C10_layout_frame :
    ∀ (net : Network) (w h : ℚ) (it : Nat) (p : Option Nat)
      (r : Network × ℚ),
      net.apply_force_directed_layout w h it p = some r →
      (r.1.nodes.length = net.nodes.length ∧
       (∀ j : Nat, (r.1.nodes[j]?).map Node.id =
         (net.nodes[j]?).map Node.id) ∧
       r.1.edges = net.edges ∧
       r.1.node_indices = net.node_indices) ∧
      (it = 0 → r = (net, 0)) := by
  intro net w h it p r hl
  unfold Network.apply_force_directed_layout at hl
  rcases hr : layoutLoop w h (layoutK net w h) p net.edges it
      net.nodes (w / 5) 0 with _ | ⟨nodes₁, md₁⟩
  · rw [hr] at hl
    cases hl
  · obtain ⟨hlen, _, hids, hzero⟩ :=
      layoutLoop_len_ids_pinned it net.nodes (w / 5) 0 (nodes₁, md₁) hr
    rw [hr] at hl
    cases hl
    refine ⟨⟨hlen, hids, rfl, rfl⟩, ?_⟩
    intro hit0
    have hz := hzero hit0
    have h1 : nodes₁ = net.nodes := congrArg Prod.fst hz
    have h2 : md₁ = 0 := congrArg Prod.snd hz
    subst h1
    subst h2
    rfl

/-- C10 witness: a zero-iteration call on `netZero` returns the
unchanged network and `0.0`, with all frame components preserved. -/
theorem claim_C10_witness :
    netZero.apply_force_directed_layout 200 200 0 none =
      some (netZero, 0) ∧
    (netZero, (0 : ℚ)).1.edges = netZero.edges ∧
    ((0 : Nat) = 0 → (netZero, (0 : ℚ)) = (netZero, 0)) :=
  ⟨rfl,
   (claim_C10_layout_frame netZero 200 200 0 none (netZero, 0)
     rfl).1.2.2.1,
   (claim_C10_layout_frame netZero 200 200 0 none (netZero, 0) rfl).2⟩

/-- C2 (amended): for every layout call with at least one iteration
that completes without panicking, every non-pinned node's position
lies in `[50, w-50] × [50, h-50]` (the final iteration clamps every
non-pinned node); with `iterations = 0` the positions are not touched
at all, so the claim as stated fails. -/
theorem claim_C2_bounding_box :
    ∀ (net : Network) (w h : ℚ) (it : Nat) (p : Option Nat)
      (r : Network × ℚ),
      1 ≤ it → net.apply_force_directed_layout w h it p = some r →
      ∀ (j : Nat) (nd : Node), p ≠ some j → r.1.nodes[j]? = some nd →
        inBox w h nd.point := by
  intro net w h it p r hit hl
  obtain ⟨it', rfl⟩ : ∃ it', it = it' + 1 := ⟨it - 1, by omega⟩
  unfold Network.apply_force_directed_layout at hl
  rcases hr : layoutLoop w h (layoutK net w h) p net.edges (it' + 1)
      net.nodes (w / 5) 0 with _ | ⟨nodes₁, md₁⟩
  · rw [hr] at hl
    cases hl
  · rw [hr] at hl
    cases hl
    exact fun j nd hpj hnd =>
      layoutLoop_box it' net.nodes (w / 5) 0 (nodes₁, md₁) hr j nd hpj hnd

/-- C2 counterexample: with `iterations = 0` the call completes but
the node of `netZero` stays at `(0, 0)`, outside
`[50, 150] × [50, 150]` — the claim as stated quantifies over every
iteration count and is therefore false. -/
theorem claim_C2_counterexample :
    netZero.apply_force_directed_layout 200 200 0 none =
      some (netZero, 0) ∧
    netZero.nodes[0]? = some { id := "Z", point := (0, 0) } ∧
    ¬ inBox 200 200 ((0 : ℚ), 0) :=
  ⟨rfl, by simp [netZero], by norm_num [inBox]⟩

/-- C2 witness: after one completed iteration on `netA` the unique
(non-pinned) node lies in the box. -/
theorem claim_C2_witness :
    netA.apply_force_directed_layout 200 200 1 none =
      some (netA, 1 / 100) ∧
    inBox 200 200 (100, 100) :=
  ⟨netA_layout_eval,
   claim_C2_bounding_box netA 200 200 1 none (netA, 1 / 100) (le_refl 1)
     netA_layout_eval 0 { id := "A", point := (100, 100) }
     (by simp) (by simp [netA])⟩

/-- C3 counterexample: with `width = 99 < 100` the clamp bounds are
`[50, 49]`, `f64::clamp` panics (modelled by `none`), so
`apply_force_directed_layout` is not total on all inputs. -/
theorem claim_C3_counterexample :
    netA.apply_force_directed_layout 99 200 1 none = none := by
  simp [Network.apply_force_directed_layout, layoutK, layoutLoop,
    layoutStep, updatePositions, iterationForces, attractiveForces,
    repulsiveForces, netA, updateStep, flooredLen, clampF, fsqrt,
    List.range_succ, List.foldlM_cons, List.foldlM_nil]
  norm_num

/-- C3 (amended): `add_node`, `add_link` and `find_node_at_point` are
total by construction (they are plain functions in this model), and
`apply_force_directed_layout` completes without panicking whenever
`width ≥ 100` and `height ≥ 100`, for every graph, every iteration
count and every pinned index; the division floors
(`node_count.max(1)`, `max(1e-2)`) make every division well-defined. -/
theorem claim_C3_no_panic_in_bounds :
    ∀ (net : Network) (w h : ℚ) (it : Nat) (p : Option Nat),
      100 ≤ w → 100 ≤ h →
      ∃ r, net.apply_force_directed_layout w h it p = some r := by
  intro net w h it p hw hh
  have hw' : ¬ w - 50 < 50 := by linarith
  have hh' : ¬ h - 50 < 50 := by linarith
  obtain ⟨⟨nodes₁, md₁⟩, hr⟩ :=
    @layoutLoop_total w h (layoutK net w h) p net.edges hw' hh' it
      net.nodes (w / 5) 0
  refine ⟨({ net with nodes := nodes₁ }, md₁), ?_⟩
  unfold Network.apply_force_directed_layout
  rw [hr]

/-- C3 witness: at the boundary `width = height = 100` a one-iteration
call on `netA` completes. -/
theorem claim_C3_witness :
    (100 : ℚ) ≤ 100 ∧
    (netA.apply_force_directed_layout 100 100 1 none).isSome = true := by
  refine ⟨le_refl _, ?_⟩
  obtain ⟨r, hr⟩ :=
    claim_C3_no_panic_in_bounds netA 100 100 1 none (le_refl _) (le_refl _)
  rw [hr]
  rfl

/-- C8 (amended): a completed call with `iterations ≥ 1` returns
exactly the last iteration's maximum over non-pinned nodes of the
*floored* displacement length `max(‖disp‖, 1e-2)`; in particular, as
soon as any non-pinned node exists, the returned value is at least
`1e-2` — a node whose forces cancel contributes the floor `1e-2`, not
zero. -/
theorem claim_C8_returns_final_iteration_max :
    ∀ (net : Network) (w h : ℚ) (it : Nat) (p : Option Nat)
      (r : Network × ℚ),
      1 ≤ it → net.apply_force_directed_layout w h it p = some r →
      ∃ ns t, ns.length = net.nodes.length ∧
        layoutStep w h (layoutK net w h) p net.edges ns t =
          some (r.1.nodes, r.2) ∧
        r.2 = maxFlooredDisp p
          (iterationForces (layoutK net w h) p net.edges ns)
          ns.length ∧
        ((∃ i, i < net.nodes.length ∧ p ≠ some i) →
          1 / 100 ≤ r.2) := by
  intro net w h it p r hit hl
  obtain ⟨it', rfl⟩ : ∃ it', it = it' + 1 := ⟨it - 1, by omega⟩
  unfold Network.apply_force_directed_layout at hl
  rcases hr : layoutLoop w h (layoutK net w h) p net.edges (it' + 1)
      net.nodes (w / 5) 0 with _ | ⟨nodes₁, md₁⟩
  · rw [hr] at hl
    cases hl
  · rw [hr] at hl
    cases hl
    obtain ⟨ns, t, hstep, hlen⟩ :=
      layoutLoop_last it' net.nodes (w / 5) 0 (nodes₁, md₁) hr
    obtain ⟨_, _, _, _, hmd⟩ := layoutStep_some_spec hstep
    refine ⟨ns, t, hlen, hstep, hmd, ?_⟩
    rintro ⟨i, hi, hpi⟩
    have hge := @maxFlooredDisp_ge p
      (iterationForces (layoutK net w h) p net.edges ns)
      ns.length i (by omega) hpi
    exact hmd ▸ hge

/-- C8 counterexample: on the single-node graph one iteration returns
`1e-2`, although the node's accumulated displacement is `(0, 0)` of
Euclidean length `0` — the returned value is the floored maximum, not
the plain maximum displacement. -/
theorem claim_C8_counterexample :
    netA.apply_force_directed_layout 200 200 1 none =
      some (netA, 1 / 100) ∧
    iterationForces (layoutK netA 200 200) none netA.edges netA.nodes =
      [(0, 0)] ∧
    fsqrt ((0 : ℚ) * 0 + 0 * 0) = 0 ∧
    (1 / 100 : ℚ) ≠ 0 :=
  ⟨netA_layout_eval,
   by simp [iterationForces, attractiveForces, repulsiveForces, netA,
     List.range_succ],
   by simp [fsqrt],
   by norm_num⟩

/-- C8 witness: the floored-maximum characterisation instantiated at
one iteration on `netA`, where the returned value is exactly the
floor `1e-2`. -/
theorem claim_C8_witness :
    netA.apply_force_directed_layout 200 200 1 none =
      some (netA, 1 / 100) ∧
    (1 / 100 : ℚ) ≤ (netA, (1 : ℚ) / 100).2 := by
  refine ⟨netA_layout_eval, ?_⟩
  obtain ⟨ns, t, hlen, hstep, hmd, hfloor⟩ :=
    claim_C8_returns_final_iteration_max netA 200 200 1 none
      (netA, 1 / 100) (le_refl 1) netA_layout_eval
  exact hfloor ⟨0, by simp [netA], by simp⟩

/-- C1 (amended): with `pinned = Some(p)` the repulsion phase
processes exactly the ordered pairs `(i, j)` with `i < j < n` whose
*lower* index differs from `p`.  Hence the pinned node still receives
and exerts repulsion for pairs `{j, p}` with `j < p`, but every pair
`{p, j}` with `j > p` is skipped entirely, contributing to neither
accumulator — the pinned node does *not* exert repulsion on
higher-indexed nodes.  (Its own position is never displaced either
way, because the update loop skips it.) -/
theorem claim_C1_pinned_repulsion_pairs :
    ∀ (k : ℚ) (nodes : List Node) (p : Nat),
      repulsiveForces k (some p) nodes =
        ((repulsionPairs nodes.length).filter (fun pr => pr.1 ≠ p)).foldl
          (repulsePair k nodes) (List.replicate nodes.length (0, 0)) ∧
      (∀ i j : Nat,
        ((i, j) ∈ (repulsionPairs nodes.length).filter
          (fun pr => pr.1 ≠ p)) ↔ (i < j ∧ j < nodes.length ∧ i ≠ p)) := by
  intro k nodes p
  refine ⟨repulsiveForces_pinned_eq k nodes p, ?_⟩
  intro i j
  rw [List.mem_filter, mem_repulsionPairs]
  constructor
  · rintro ⟨⟨h1, h2⟩, h3⟩
    exact ⟨h1, h2, by simpa using h3⟩
  · rintro ⟨h1, h2, h3⟩
    exact ⟨⟨h1, h2⟩, by simpa using h3⟩

/-- C1 counterexample: two nodes `100` apart, pinned node `0`.  The
claim says the pair `{0, 1}` still contributes the repulsion term
`k²/dist ≠ 0` to node `1`'s accumulator, but the phase leaves both
accumulators at `(0, 0)`: the pair is skipped entirely. -/
theorem claim_C1_counterexample :
    repulsiveForces (layoutK netB 200 200) (some 0) netB.nodes =
      [(0, 0), (0, 0)] ∧
    layoutK netB 200 200 * layoutK netB 200 200 / 100 ≠ 0 := by
  constructor
  · simp [repulsiveForces, netB, List.range_succ]
  · have h20 : ((200 : ℚ) * 200 /
        ((max netB.nodes.length 1 : Nat) : ℚ)) = 20000 := by
      simp [netB]
      norm_num
    rw [layoutK, h20, fsqrt_twenty_thousand]
    norm_num

/-- C1 witness: the pair characterisation instantiated on the
two-node network with pinned node `0`: the only pair `(0, 1)` has
lower index `0 = p` and is excluded. -/
theorem claim_C1_witness :
    ¬ ((0, 1) ∈ (repulsionPairs netB.nodes.length).filter
      (fun pr => pr.1 ≠ 0)) := by
  intro hmem
  have := ((claim_C1_pinned_repulsion_pairs 1 netB.nodes 0).2 0 1).mp hmem
  exact this.2.2 rfl

end NetModeler
